import Mathlib

set_option maxHeartbeats 1000000

/-!
Shallow embedding of the query-path language of the `dagger` repository
(`src/cli/src/query/parser.rs`, `src/cli/src/query/executor.rs`,
`src/cli/src/scope/resolver.rs`, `src/cli/src/scope/config.rs`,
`src/cli/src/parser/models.rs`), together with theorems settling the
frozen claims about the natural-language specification.

Rust strings are modelled as lists of characters (`Str`); `HashMap`s are
modelled as association lists with first-match lookup; `f64` values are
modelled as rationals (the claims under study do not depend on binary
floating-point rounding); fallible Rust functions returning `Result`
are modelled with `Except`.
-/

namespace Dagger

/-- Rust `&str` / `String`, modelled as a list of characters. -/
abbrev Str := List Char

/-- Character list of a Lean string literal. -/
def lit (s : String) : Str := s.toList

/-- Rust `str::split(sep)`: splits at every occurrence of `sep`; the result
always has one more part than there are separators, so splitting the empty
string yields `[[]]` (one empty part), exactly as in Rust. -/
def splitChar (sep : Char) : Str → List Str
  | [] => [[]]
  | c :: rest =>
    match splitChar sep rest with
    | [] => [[]]
    | p :: ps => if c = sep then [] :: p :: ps else (c :: p) :: ps

/-- Rust `str::split_once(sep)`: splits at the first occurrence of `sep`. -/
def splitOnceChar (sep : Char) : Str → Option (Str × Str)
  | [] => none
  | c :: rest =>
    if c = sep then some ([], rest)
    else (splitOnceChar sep rest).map (fun p => (c :: p.1, p.2))

/-- Rust `str::strip_prefix(pre)`. -/
def dropPre : Str → Str → Option Str
  | [], s => some s
  | _ :: _, [] => none
  | p :: ps, c :: cs => if p = c then dropPre ps cs else none

/-- Rust `str::starts_with(pre)`. -/
def startsW (pre s : Str) : Bool := List.isPrefixOf pre s

/-- Rust `str::find(c)` for a single character (all inputs of interest are
ASCII, where byte indices and character indices coincide). -/
def findIdxChar (c : Char) (s : Str) : Option Nat := s.findIdx? (· = c)

/-- Rust `str::find(pat)` for a substring pattern. -/
def findSub (pat : Str) : Str → Option Nat
  | [] => if pat = [] then some 0 else none
  | c :: rest =>
    if List.isPrefixOf pat (c :: rest) then some 0
    else (findSub pat rest).map (· + 1)

/-- Rust `str::trim`. -/
def trimStr (s : Str) : Str :=
  ((s.dropWhile Char.isWhitespace).reverse.dropWhile Char.isWhitespace).reverse

/-- Rust `[&str]::join(sep)` for a single-character separator. -/
def joinChar (sep : Char) : List Str → Str
  | [] => []
  | [x] => x
  | x :: y :: ys => x ++ sep :: joinChar sep (y :: ys)

/-- Decimal digits to a number; `none` if empty or a non-digit occurs. -/
def digitsToNat : Str → Option Nat
  | [] => none
  | ds => ds.foldlM (fun acc c => if c.isDigit then some (acc * 10 + (c.toNat - '0'.toNat)) else none) 0

/-- Rust `str::parse::<usize>()`: an optional leading `'+'` followed by at
least one ASCII digit (the model ignores overflow, which no claim touches). -/
def parseNatStr (s : Str) : Option Nat :=
  match s with
  | '+' :: rest => digitsToNat rest
  | _ => digitsToNat s

/-- Decimal rendering of a number (Rust `format!` of an integer). -/
def natStr (n : Nat) : Str := Nat.toDigits 10 n

/-! ## Query path AST and parser (`src/cli/src/query/parser.rs`) -/

/-- `FilterOperator` from `parser.rs`. -/
inductive FilterOperator where
  | equals
  | notEquals
  | greaterThan
  | lessThan
  | greaterThanOrEqual
  | lessThanOrEqual
deriving DecidableEq, Repr

/-- `QueryPath` from `parser.rs`.  `range`'s fields are Rust's
`start`/`end` (renamed `stop`, since `end` is a Lean keyword). -/
inductive QueryPath where
  | node (id : Str)
  | property (name : Str) (inner : QueryPath)
  | index (i : Nat) (inner : QueryPath)
  | range (start stop : Option Nat) (inner : QueryPath)
  | filter (field : Str) (op : FilterOperator) (value : Str) (inner : QueryPath)
  | scopeResolve (property : Str) (scopes : List Str) (inner : QueryPath)
deriving DecidableEq, Repr

/-- `ParseError` from `parser.rs`. -/
inductive ParseError where
  | emptyPath
  | invalidIndex (detail : Str)
  | unexpectedEnd
  | invalidCharacter (c : Char) (pos : Nat)
deriving DecidableEq, Repr

/-- `parse_range` from `parser.rs`: recognizes `start:end`, `:end`,
`start:`, `:`; `Ok none` when the segment is not range-shaped. -/
def parseRange (part : Str) : Except ParseError (Option (Option Nat × Option Nat)) :=
  if part.contains ':' then
    match splitChar ':' part with
    | [a, b] => do
      let start ←
        if a = [] then pure none
        else match parseNatStr a with
          | some n => pure (some n)
          | none => Except.error (ParseError.invalidIndex (lit "Invalid range start: " ++ a))
      let stop ←
        if b = [] then pure none
        else match parseNatStr b with
          | some n => pure (some n)
          | none => Except.error (ParseError.invalidIndex (lit "Invalid range end: " ++ b))
      return some (start, stop)
    | _ => Except.ok none
  else Except.ok none

/-- `parse_filter_expression` from `parser.rs`: operators are tried in the
order `>=`, `<=`, `!=`, `>`, `<`, `=`. -/
def parseFilterExpr (expr : Str) : Except ParseError (Str × FilterOperator × Str) :=
  match findSub (lit ">=") expr with
  | some pos => .ok (trimStr (expr.take pos), .greaterThanOrEqual, trimStr (expr.drop (pos + 2)))
  | none =>
  match findSub (lit "<=") expr with
  | some pos => .ok (trimStr (expr.take pos), .lessThanOrEqual, trimStr (expr.drop (pos + 2)))
  | none =>
  match findSub (lit "!=") expr with
  | some pos => .ok (trimStr (expr.take pos), .notEquals, trimStr (expr.drop (pos + 2)))
  | none =>
  match findIdxChar '>' expr with
  | some pos => .ok (trimStr (expr.take pos), .greaterThan, trimStr (expr.drop (pos + 1)))
  | none =>
  match findIdxChar '<' expr with
  | some pos => .ok (trimStr (expr.take pos), .lessThan, trimStr (expr.drop (pos + 1)))
  | none =>
  match findIdxChar '=' expr with
  | some pos => .ok (trimStr (expr.take pos), .equals, trimStr (expr.drop (pos + 1)))
  | none => .error (.invalidCharacter '=' 0)

/-- `parse_filter` from `parser.rs`: recognizes `name[field<op>value]`,
returning `(name, field, op, value)`; `Ok none` when there is no bracket
pair.  (When `]` appears before `[` the Rust slice would panic; the model's
truncating slice makes the expression empty instead — no claim reaches
that case.) -/
def parseFilter (part : Str) :
    Except ParseError (Option (Str × Str × FilterOperator × Str)) :=
  match findIdxChar '[' part, findIdxChar ']' part with
  | some bs, some be => do
    let property := part.take bs
    let fexpr := (part.drop (bs + 1)).take (be - (bs + 1))
    let (field, op, value) ← parseFilterExpr fexpr
    return some (property, field, op, value)
  | _, _ => .ok none

/-- `parse_network_query` from `parser.rs`. -/
def parseNetworkQuery (path : Str) : Except ParseError QueryPath :=
  if path = lit "nodes" then
    .ok (.property (lit "nodes") (.node (lit "network")))
  else if path = lit "edges" then
    .ok (.property (lit "edges") (.node (lit "network")))
  else
    match findIdxChar '[' path, findIdxChar ']' path with
    | some bs, some be =>
      let collection := path.take bs
      let fexpr := (path.drop (bs + 1)).take (be - (bs + 1))
      if collection = lit "nodes" ∨ collection = lit "edges" then do
        let (field, op, value) ← parseFilterExpr fexpr
        return .filter field op value (.property collection (.node (lit "network")))
      else .error (.invalidCharacter '?' 0)
    | _, _ => .error (.invalidCharacter '?' 0)

/-- The segment-classification chain of `parse_query_path`'s loop body:
filter syntax, then range syntax, then numeric index, else property name. -/
def applyPlainSegment (current : QueryPath) (part : Str) : Except ParseError QueryPath :=
  match parseFilter part with
  | .error e => .error e
  | .ok (some (property, field, op, value)) =>
    if property = [] then .ok (.filter field op value current)
    else .ok (.filter field op value (.property property current))
  | .ok none =>
    match parseRange part with
    | .error e => .error e
    | .ok (some (s, e)) => .ok (.range s e current)
    | .ok none =>
      match parseNatStr part with
      | some i => .ok (.index i current)
      | none => .ok (.property part current)

/-- One iteration of `parse_query_path`'s loop: a segment containing both
`:` and `[` is split at the first `[`; if the front parses as a range the
range wraps the current AST first and the bracketed filter (when well
formed) wraps the range; otherwise the plain classification chain runs. -/
def applySegment (current : QueryPath) (part : Str) : Except ParseError QueryPath :=
  if part.contains ':' && part.contains '[' then
    match findIdxChar '[' part with
    | some bs =>
      (match parseRange (part.take bs) with
       | .error e => .error e
       | .ok (some (s, e)) =>
         let cur := QueryPath.range s e current
         (match parseFilter (part.drop bs) with
          | .error e => .error e
          | .ok (some (_, field, op, value)) => .ok (.filter field op value cur)
          | .ok none => .ok cur)
       | .ok none => applyPlainSegment current part)
    | none => applyPlainSegment current part
  else applyPlainSegment current part

/-- The `for part in parts.into_iter().skip(1)` loop of `parse_query_path`;
empty segments are skipped. -/
def applySegments (current : QueryPath) : List Str → Except ParseError QueryPath
  | [] => .ok current
  | part :: rest =>
    if part = [] then applySegments current rest
    else
      match applySegment current part with
      | .error e => .error e
      | .ok cur => applySegments cur rest

/-- The non-scope tail of `parse_query_path`: split on `/`, seed
`Node(first)`, fold the remaining segments. -/
def parseSegmentsPath (path : Str) : Except ParseError QueryPath :=
  match splitChar '/' path with
  | [] => .error .emptyPath
  | p0 :: rest => applySegments (.node p0) rest

/-- `parse_query_path` from `parser.rs`, with explicit fuel standing in for
Rust's recursion (the scope-resolution arm recurses on the rebuilt base
path, which is strictly shorter than the input, so `length + 1` fuel always
suffices; the fuel-exhaustion arm is unreachable). -/
def parseQP : Nat → Str → Except ParseError QueryPath
  | 0, _ => .error .emptyPath
  | fuel + 1, path =>
    if path = [] then .error .emptyPath
    else if startsW (lit "nodes") path || startsW (lit "edges") path then
      parseNetworkQuery path
    else
      match splitOnceChar '?' path with
      | some (basePath, scopePart) =>
        (match dropPre (lit "scope=") scopePart with
         | some scopeStr =>
           let parts := splitChar '/' basePath
           (match parts.getLast? with
            | none => .error .unexpectedEnd
            | some property =>
              let scopes := (splitChar ',' scopeStr).map trimStr
              let innerBase :=
                if parts.length > 1 then joinChar '/' parts.dropLast
                else parts.headD []
              match parseQP fuel innerBase with
              | .error e => .error e
              | .ok inner => .ok (.scopeResolve property scopes inner))
         | none => parseSegmentsPath path)
      | none => parseSegmentsPath path

/-- `parse_query_path` entry point. -/
def parseQueryPath (path : Str) : Except ParseError QueryPath :=
  parseQP (path.length + 1) path


/-! ## TOML and JSON values -/

/-- `toml::Value`.  Floats are modelled as rationals. -/
inductive Toml where
  | str (s : Str)
  | int (i : Int)
  | float (q : ℚ)
  | bool (b : Bool)
  | datetime (s : Str)
  | arr (elems : List Toml)
  | table (entries : List (Str × Toml))
deriving Repr

/-- `serde_json::Value`.  Numbers are modelled as rationals. -/
inductive Json where
  | null
  | bool (b : Bool)
  | num (q : ℚ)
  | str (s : Str)
  | arr (elems : List Json)
  | obj (entries : List (Str × Json))
deriving Repr

/-- `HashMap` / JSON-object lookup over the association-list model. -/
def lookupKV {α : Type} : List (Str × α) → Str → Option α
  | [], _ => none
  | (k, v) :: rest, key => if k = key then some v else lookupKV rest key

mutual
/-- `toml_to_json` from `executor.rs` (a datetime becomes its display
string; `from_f64` cannot fail in the rational model). -/
def tomlToJson : Toml → Json
  | .str s => .str s
  | .int i => .num i
  | .float q => .num q
  | .bool b => .bool b
  | .datetime s => .str s
  | .arr l => .arr (tomlListToJson l)
  | .table t => .obj (tomlTableToJson t)
def tomlListToJson : List Toml → List Json
  | [] => []
  | x :: xs => tomlToJson x :: tomlListToJson xs
def tomlTableToJson : List (Str × Toml) → List (Str × Json)
  | [] => []
  | (k, v) :: rest => (k, tomlToJson v) :: tomlTableToJson rest
end

/-! ## Scope configuration (`src/cli/src/scope/config.rs`) -/

/-- `ScopeLevel` from `scope/config.rs`. -/
inductive ScopeLevel where
  | global
  | group
  | branch
  | block
deriving DecidableEq, Repr

/-- `PropertyInheritanceRule` from `scope/config.rs`. -/
inductive PropertyInheritanceRule where
  | simple (scopes : List ScopeLevel)
  | complex (inheritance : List ScopeLevel) (overrides : List (Str × List ScopeLevel))
deriving DecidableEq, Repr

/-- `InheritanceConfig` from `scope/config.rs`. -/
structure InheritanceConfig where
  general : List ScopeLevel
  rules : List (Str × PropertyInheritanceRule)

/-- `Config` from `scope/config.rs`. -/
structure Config where
  properties : List (Str × Toml)
  inheritance : InheritanceConfig

/-- `default_general_inheritance` from `scope/config.rs`. -/
def defaultGeneralInheritance : List ScopeLevel :=
  [.block, .branch, .group, .global]

/-! ## Network model (`src/cli/src/parser/models.rs`) -/

/-- `Position` from `models.rs` (`x`, `y` are `i32`). -/
structure Position where
  x : Int
  y : Int

/-- `Outgoing` from `models.rs` (`weight` is `u32`). -/
structure Outgoing where
  target : Str
  weight : Nat

/-- `Block` from `models.rs`. -/
structure Block where
  quantity : Option Nat
  type_ : Str
  extra : List (Str × Toml)

/-- `NodeBase` from `models.rs`. -/
structure NodeBase where
  id : Str
  type_ : Str
  label : Option Str
  position : Position
  parent_id : Option Str
  width : Option Nat
  height : Option Nat
  extra : List (Str × Toml)

/-- `BranchNode` from `models.rs`. -/
structure BranchNode where
  base : NodeBase
  outgoing : List Outgoing
  blocks : List Block

/-- `GroupNode` from `models.rs`. -/
structure GroupNode where
  base : NodeBase

/-- `GeographicAnchorNode` from `models.rs`. -/
structure GeographicAnchorNode where
  base : NodeBase

/-- `GeographicWindowNode` from `models.rs`. -/
structure GeographicWindowNode where
  base : NodeBase

/-- `NodeData` from `models.rs`. -/
inductive NodeData where
  | branch (n : BranchNode)
  | group (n : GroupNode)
  | geographicAnchor (n : GeographicAnchorNode)
  | geographicWindow (n : GeographicWindowNode)

/-- `NodeData::id` from `models.rs`. -/
def NodeData.nodeId : NodeData → Str
  | .branch n => n.base.id
  | .group n => n.base.id
  | .geographicAnchor n => n.base.id
  | .geographicWindow n => n.base.id

/-- `EdgeData` from `models.rs`. -/
structure EdgeData where
  weight : Nat

/-- `Edge` from `models.rs`. -/
structure Edge where
  id : Str
  source : Str
  target : Str
  data : EdgeData

/-- `Network` from `models.rs`. -/
structure Network where
  id : Str
  label : Str
  nodes : List NodeData
  edges : List Edge

/-! ## Scope resolver (`src/cli/src/scope/resolver.rs`) -/

/-- `ScopeResolver::resolve_property_with_explicit_scopes`: walk the scope
list in order; the first scope whose backing store contains `property`
wins (Block → the block's `extra`, Branch → the branch base's `extra`,
Group → the owning group's base `extra` if a group exists, Global → the
config's `properties`); `none` when no listed scope contains it. -/
def resolvePropertyWithExplicitScopes (config : Config) (property : Str) (block : Block)
    (branch : BranchNode) (group : Option GroupNode) :
    List ScopeLevel → Option (Toml × ScopeLevel)
  | [] => none
  | scope :: rest =>
    let hit : Option (Toml × ScopeLevel) :=
      match scope with
      | .block => (lookupKV block.extra property).map (fun v => (v, ScopeLevel.block))
      | .branch => (lookupKV branch.base.extra property).map (fun v => (v, ScopeLevel.branch))
      | .group => (group.bind (fun g => lookupKV g.base.extra property)).map
          (fun v => (v, ScopeLevel.group))
      | .global => (lookupKV config.properties property).map (fun v => (v, ScopeLevel.global))
    match hit with
    | some r => some r
    | none => resolvePropertyWithExplicitScopes config property block branch group rest

/-- `ScopeResolver::get_scope_chain`: per-property rule if present (with
the block-type override consulted first for complex rules), else the
configuration's general default ordering. -/
def getScopeChain (config : Config) (property blockType : Str) : List ScopeLevel :=
  match lookupKV config.inheritance.rules property with
  | some (.simple scopes) => scopes
  | some (.complex inheritance overrides) => (lookupKV overrides blockType).getD inheritance
  | none => config.inheritance.general

/-- `ScopeResolver::resolve_property_with_scope`. -/
def resolvePropertyWithScope (config : Config) (property : Str) (block : Block)
    (branch : BranchNode) (group : Option GroupNode) : Option (Toml × ScopeLevel) :=
  resolvePropertyWithExplicitScopes config property block branch group
    (getScopeChain config property block.type_)

/-- `ScopeResolver::resolve_property`. -/
def resolvePropertyR (config : Config) (property : Str) (block : Block)
    (branch : BranchNode) (group : Option GroupNode) : Option Toml :=
  (resolvePropertyWithScope config property block branch group).map (·.1)

/-- `ScopeResolver::has_global_property`. -/
def hasGlobalProperty (config : Config) (property : Str) : Bool :=
  (lookupKV config.properties property).isSome

/-! ## Query executor (`src/cli/src/query/executor.rs`)

The executor is modelled for the configurations produced by
`QueryExecutor::new` and `QueryExecutor::with_scope_resolver` (the entry
points the query pipeline uses): `unit_preferences` is
`UnitPreferences::default()` and there is no schema registry, so the
unit-formatting hook in `get_node` finds no preferred unit and returns
each property value unchanged (`dim/formatter.rs` lines 43-61).  The
`ScopeResolver` is represented by its `Config`. -/

/-- `QueryError` from `executor.rs`. -/
inductive QueryError where
  | nodeNotFound (id : Str)
  | propertyNotFound (name : Str)
  | indexOutOfRange (idx len : Nat)
  | invalidType (msg : Str)
  | parseError (e : ParseError)
deriving Repr

/-- `QueryContext` from `executor.rs`: the mutable evaluation context. -/
structure QueryContext where
  node_id : Option Str
  block_index : Option Nat

/-- The state threaded through `execute_with_context`: the executor's
borrowed network and optional scope resolver (`&self`) together with the
mutable query context (`&mut QueryContext`).  Threading all three lets the
development prove, rather than assume, that evaluation never changes the
network or the resolver configuration. -/
structure ExecState where
  network : Network
  resolver : Option Config
  ctx : QueryContext

/-- Serialization of `Position` (fields in declaration order `x`, `y`). -/
def posJson (p : Position) : Json :=
  .obj [(lit "x", .num p.x), (lit "y", .num p.y)]

/-- `UnitFormatter::format_property` as called from `get_node` under
default unit preferences and no schema metadata: no preferred unit is
found, so the value is returned unchanged. -/
def formatPropertyDefault (_key : Str) (v : Json) : Json := v

/-- Rust `str::ends_with(suf)`. -/
def endsW (suf s : Str) : Bool := List.isSuffixOf suf s

/-- The per-block JSON object built by `get_node`: `type`, `quantity`
when present, then every `extra` property except the
`_<name>_original` bookkeeping keys, each passed through the
unit-formatting hook. -/
def blockJson (b : Block) : Json :=
  .obj ([(lit "type", Json.str b.type_)]
    ++ (match b.quantity with
        | some q => [(lit "quantity", Json.num q)]
        | none => [])
    ++ ((b.extra.filter
          (fun kv => !(startsW (lit "_") kv.1 && endsW (lit "_original") kv.1))).map
          (fun kv => (kv.1, formatPropertyDefault kv.1 (tomlToJson kv.2)))))

/-- The `id`/`type`/`label?`/`position` header `get_node` writes for every
node kind. -/
def nodeBaseHeader (base : NodeBase) : List (Str × Json) :=
  [(lit "id", Json.str base.id), (lit "type", Json.str base.type_)]
  ++ (match base.label with
      | some l => [(lit "label", Json.str l)]
      | none => [])
  ++ [(lit "position", posJson base.position)]

/-- `QueryExecutor::get_node`: linear scan by id, then the canonical
structured representation of the matched node. -/
def getNode (net : Network) (id : Str) : Except QueryError Json :=
  match net.nodes.find? (fun n => n.nodeId == id) with
  | none => .error (.nodeNotFound id)
  | some (.branch b) =>
    .ok (.obj (nodeBaseHeader b.base
      ++ [(lit "blocks", Json.arr (b.blocks.map blockJson))]
      ++ (if b.outgoing.isEmpty then [] else
          [(lit "outgoing", Json.arr (b.outgoing.map (fun o =>
            Json.obj [(lit "target", .str o.target), (lit "weight", .num o.weight)])))])
      ++ (match b.base.parent_id with
          | some pid => [(lit "parentId", Json.str pid)]
          | none => [])))
  | some (.group g) =>
    .ok (.obj (nodeBaseHeader g.base
      ++ (match g.base.parent_id with
          | some pid => [(lit "parentId", Json.str pid)]
          | none => [])))
  | some (.geographicAnchor a) => .ok (.obj (nodeBaseHeader a.base))
  | some (.geographicWindow w) => .ok (.obj (nodeBaseHeader w.base))

/-- `QueryExecutor::get_property`: object field lookup, with the `"data"`
alias returning the whole object before the map is consulted. -/
def getProperty (value : Json) (name : Str) : Except QueryError Json :=
  match value with
  | .obj entries =>
    if name = lit "data" then .ok value
    else
      match lookupKV entries name with
      | some v => .ok v
      | none => .error (.propertyNotFound name)
  | _ => .error (.invalidType (lit "Cannot access property '" ++ name
      ++ lit "' on non-object"))

/-- `QueryExecutor::get_index`. -/
def getIndex (value : Json) (idx : Nat) : Except QueryError Json :=
  match value with
  | .arr l =>
    if h : l.length ≤ idx then .error (.indexOutOfRange idx l.length)
    else .ok (l.get ⟨idx, Nat.lt_of_not_le h⟩)
  | _ => .error (.invalidType (lit "Cannot index into non-array (index: "
      ++ natStr idx ++ lit ")"))

/-- The `InvalidType` message `get_range` produces when `start > end`. -/
def rangeStartEndMsg (s e : Nat) : Str :=
  lit "Range start (" ++ natStr s ++ lit ") must be <= end (" ++ natStr e ++ lit ")"

/-- `QueryExecutor::get_range`: inclusive slice with defaults `0` and
`len - 1`; bounds are validated before slicing. -/
def getRange (value : Json) (start stop : Option Nat) : Except QueryError Json :=
  match value with
  | .arr l =>
    let startIdx := start.getD 0
    let endIdx := stop.getD (l.length - 1)
    if startIdx ≥ l.length then .error (.indexOutOfRange startIdx l.length)
    else if endIdx ≥ l.length then .error (.indexOutOfRange endIdx l.length)
    else if startIdx > endIdx then .error (.invalidType (rangeStartEndMsg startIdx endIdx))
    else .ok (.arr ((l.drop startIdx).take (endIdx + 1 - startIdx)))
  | _ => .error (.invalidType (lit "Cannot apply range to non-array"))

/-- `f64::EPSILON` (2⁻⁵²), as a rational. -/
def epsilonQ : ℚ := 1 / 2 ^ 52

/-- Rust `str::parse::<bool>()`. -/
def parseBool (s : Str) : Option Bool :=
  if s = lit "true" then some true
  else if s = lit "false" then some false
  else none

/-- Decimal mantissa `Digits ['.' Digits] | '.' Digits` as a rational. -/
def parseMantissa (s : Str) : Option ℚ :=
  match splitOnceChar '.' s with
  | none => (digitsToNat s).map (fun n => (n : ℚ))
  | some (ip, fp) =>
    if (ip.all Char.isDigit && fp.all Char.isDigit) && (ip ≠ [] ∨ fp ≠ []) then
      some ((digitsToNat ip).getD 0 + ((digitsToNat fp).getD 0 : ℚ) / 10 ^ fp.length)
    else none

/-- Optionally signed decimal exponent. -/
def parseExpPart (s : Str) : Option Int :=
  match s with
  | '+' :: ds => (digitsToNat ds).map Int.ofNat
  | '-' :: ds => (digitsToNat ds).map (fun n => -(n : Int))
  | ds => (digitsToNat ds).map Int.ofNat

/-- Mantissa with optional `e`/`E` exponent. -/
def parseFloatCore (s : Str) : Option ℚ :=
  match splitOnceChar 'e' s with
  | some (m, e) => do
    let mv ← parseMantissa m
    let ev ← parseExpPart e
    return mv * (10 : ℚ) ^ ev
  | none =>
    match splitOnceChar 'E' s with
    | some (m, e) => do
      let mv ← parseMantissa m
      let ev ← parseExpPart e
      return mv * (10 : ℚ) ^ ev
    | none => parseMantissa s

/-- Rust `str::parse::<f64>()` over rationals: optional sign, decimal
mantissa, optional decimal exponent.  The non-finite literals
(`inf`/`NaN`) and binary rounding are outside the model; no claim
depends on them. -/
def parseFloat (s : Str) : Option ℚ :=
  match s with
  | '+' :: rest => parseFloatCore rest
  | '-' :: rest => (parseFloatCore rest).map Neg.neg
  | _ => parseFloatCore s

/-- `matches_value` from `executor.rs`: type-aware equality (string exact
match, numeric within `f64::EPSILON`, boolean by parsing). -/
def matchesValue (value : Json) (filterValue : Str) : Bool :=
  match value with
  | .str s => s == filterValue
  | .num n =>
    match parseFloat filterValue with
    | some f => decide (|n - f| < epsilonQ)
    | none => false
  | .bool b =>
    match parseBool filterValue with
    | some fv => b == fv
    | none => false
  | _ => false

/-- `compare_numeric` from `executor.rs`: the field must be numeric and the
literal must parse as a float, else `InvalidType`. -/
def compareNumeric (value : Json) (filterValue : Str) (cmp : ℚ → ℚ → Bool) :
    Except QueryError Bool :=
  match value with
  | .num n =>
    match parseFloat filterValue with
    | some f => .ok (cmp n f)
    | none => .error (.invalidType (lit "Cannot parse filter value as number: " ++ filterValue))
  | _ => .error (.invalidType (lit "Comparison operators only work with numbers"))

/-- `QueryExecutor::matches_filter_value`. -/
def matchesFilterValue (fieldValue : Json) (op : FilterOperator) (filterValue : Str) :
    Except QueryError Bool :=
  match op with
  | .equals => .ok (matchesValue fieldValue filterValue)
  | .notEquals => .ok (!matchesValue fieldValue filterValue)
  | .greaterThan => compareNumeric fieldValue filterValue (fun a b => decide (a > b))
  | .lessThan => compareNumeric fieldValue filterValue (fun a b => decide (a < b))
  | .greaterThanOrEqual => compareNumeric fieldValue filterValue (fun a b => decide (a ≥ b))
  | .lessThanOrEqual => compareNumeric fieldValue filterValue (fun a b => decide (a ≤ b))

/-- `QueryExecutor::get_nested_property`: repeated `get_property` along a
dot-separated path. -/
def getNestedProperty (value : Json) (path : Str) : Except QueryError Json :=
  (splitChar '.' path).foldlM (fun cur part => getProperty cur part) value

/-- The per-element predicate of `apply_filter`: a failed field lookup and
a failed comparison (`.unwrap_or_default()`) both count as non-matching
rather than raising. -/
def filterItemPred (item : Json) (field : Str) (op : FilterOperator) (filterValue : Str) :
    Bool :=
  match (if field.contains '.' then getNestedProperty item field
         else getProperty item field) with
  | .ok fv =>
    match matchesFilterValue fv op filterValue with
    | .ok b => b
    | .error _ => false
  | .error _ => false

/-- `QueryExecutor::apply_filter`. -/
def applyFilter (value : Json) (field : Str) (op : FilterOperator) (filterValue : Str) :
    Except QueryError Json :=
  match value with
  | .arr l => .ok (.arr (l.filter (fun item => filterItemPred item field op filterValue)))
  | _ => .error (.invalidType (lit "Filter can only be applied to arrays"))

/-- The scope-string parsing of `resolve_scoped_property_from_context`
(unrecognized tokens silently dropped). -/
def parseScopeLevels (explicitScopes : List Str) : List ScopeLevel :=
  explicitScopes.filterMap (fun s =>
    let ls := s.map Char.toLower
    if ls = lit "block" then some ScopeLevel.block
    else if ls = lit "branch" then some ScopeLevel.branch
    else if ls = lit "group" then some ScopeLevel.group
    else if ls = lit "global" then some ScopeLevel.global
    else none)

/-- `QueryExecutor::resolve_scoped_property_from_context`: requires a node
id and block index in context, locates branch, block and (optionally)
group, and resolves through the scope resolver — with the explicit scope
list when non-empty, else the configured chain. -/
def resolveScopedPropertyFromContext (net : Network) (resolver : Config) (property : Str)
    (explicitScopes : List Str) (context : QueryContext) : Except QueryError Json :=
  match context.node_id with
  | none => .error (.invalidType (lit "Scope resolution requires a node context"))
  | some nodeId =>
  match context.block_index with
  | none => .error (.invalidType
      (lit "Scope resolution requires a block context (use path like branch-4/blocks/0)"))
  | some blockIndex =>
  match net.nodes.findSome? (fun n =>
    match n with
    | .branch b => if b.base.id == nodeId then some b else none
    | _ => none) with
  | none => .error (.nodeNotFound nodeId)
  | some branchNode =>
  match branchNode.blocks.get? blockIndex with
  | none => .error (.indexOutOfRange blockIndex branchNode.blocks.length)
  | some block =>
    let group := branchNode.base.parent_id.bind (fun pid =>
      net.nodes.findSome? (fun n =>
        match n with
        | .group g => if g.base.id == pid then some g else none
        | _ => none))
    let scopeLevels := parseScopeLevels explicitScopes
    let value :=
      if !scopeLevels.isEmpty then
        (resolvePropertyWithExplicitScopes resolver property block branchNode group
          scopeLevels).map (·.1)
      else resolvePropertyR resolver property block branchNode group
    match value with
    | some v => .ok (tomlToJson v)
    | none => .error (.propertyNotFound (lit "Property '" ++ property
        ++ lit "' not found in any scope"))

/-- `QueryExecutor::execute_with_context`: the recursive walk, threading
the executor state (network, resolver, mutable context). -/
def executeWithContext : QueryPath → ExecState → Except QueryError Json × ExecState
  | .node id, st =>
    let st := { st with ctx := { st.ctx with node_id := some id } }
    (getNode st.network id, st)
  | .property name inner, st =>
    match executeWithContext inner st with
    | (.error e, st1) => (.error e, st1)
    | (.ok value, st1) =>
      let isBlock : Bool :=
        match value with
        | .obj entries =>
          match lookupKV entries (lit "type") with
          | some (.str _) => true
          | _ => false
        | _ => false
      if isBlock && st1.ctx.block_index.isSome && st1.ctx.node_id.isSome then
        match getProperty value name with
        | .ok v => (.ok v, st1)
        | .error (.propertyNotFound _) =>
          (match st1.resolver with
           | some resolver =>
             (resolveScopedPropertyFromContext st1.network resolver name [] st1.ctx, st1)
           | none => (.error (.propertyNotFound name), st1))
        | .error e => (.error e, st1)
      else (getProperty value name, st1)
  | .index idx inner, st =>
    let st := { st with ctx := { st.ctx with block_index := some idx } }
    match executeWithContext inner st with
    | (.error e, st1) => (.error e, st1)
    | (.ok value, st1) => (getIndex value idx, st1)
  | .range s e inner, st =>
    match executeWithContext inner st with
    | (.error err, st1) => (.error err, st1)
    | (.ok value, st1) => (getRange value s e, st1)
  | .filter field op fv inner, st =>
    match executeWithContext inner st with
    | (.error e, st1) => (.error e, st1)
    | (.ok value, st1) => (applyFilter value field op fv, st1)
  | .scopeResolve property scopes inner, st =>
    match executeWithContext inner st with
    | (.error e, st1) => (.error e, st1)
    | (.ok _, st1) =>
      match st1.resolver with
      | some resolver =>
        (resolveScopedPropertyFromContext st1.network resolver property scopes st1.ctx, st1)
      | none =>
        (.error (.invalidType
          (lit "Scope resolution requires scope resolver. Use resolve command instead.")), st1)

/-- Lexicographic byte order on strings (the key order of `serde_json`'s
default `BTreeMap`-backed object map; all keys of interest are ASCII). -/
def strLe : Str → Str → Bool
  | [], _ => true
  | _ :: _, [] => false
  | a :: as, b :: bs =>
    if a.toNat < b.toNat then true
    else if b.toNat < a.toNat then false
    else strLe as bs

/-- Insertion into a key-sorted association list. -/
def insertSortedKV (kv : Str × Json) : List (Str × Json) → List (Str × Json)
  | [] => [kv]
  | kv2 :: rest => if strLe kv.1 kv2.1 then kv :: kv2 :: rest else kv2 :: insertSortedKV kv rest

/-- Sort object entries by key, as `serde_json`'s map does. -/
def sortObj (l : List (Str × Json)) : List (Str × Json) := l.foldr insertSortedKV []

/-- The `BlockData` React-Flow serialization from `models.rs`. -/
def blockDataJson (b : Block) : Json :=
  let kind :=
    if b.type_ = lit "Source" then lit "source"
    else if b.type_ = lit "Sink" then lit "sink"
    else lit "transform"
  .obj [(lit "kind", .str kind), (lit "label", .str b.type_),
        (lit "quantity", .num (b.quantity.getD 1)), (lit "type", .str b.type_)]

/-- The custom `Serialize` impl of `BranchNode` from `models.rs`
(`id`, `position`, `data {id, label, blocks}`, `parentId`/`extent` when
parented, `type`), with keys in map order. -/
def serializeBranchNode (b : BranchNode) : Json :=
  .obj (sortObj (
    [(lit "id", Json.str b.base.id),
     (lit "position", posJson b.base.position),
     (lit "data", Json.obj (sortObj
        [(lit "id", Json.str b.base.id),
         (lit "label", Json.str (b.base.label.getD b.base.id)),
         (lit "blocks", Json.arr (b.blocks.map blockDataJson))]))]
    ++ (match b.base.parent_id with
        | some pid => [(lit "parentId", Json.str pid), (lit "extent", Json.str (lit "parent"))]
        | none => [])
    ++ [(lit "type", Json.str b.base.type_)]))

/-- The derived (flattened) serialization of `NodeBase` used by group and
geographic nodes: `id` is skipped, absent options serialize as `null`,
`extra` is flattened in. -/
def serializeNodeBase (base : NodeBase) : Json :=
  .obj (sortObj (
    [(lit "type", Json.str base.type_),
     (lit "label", base.label.elim Json.null Json.str),
     (lit "position", posJson base.position),
     (lit "parentId", base.parent_id.elim Json.null Json.str),
     (lit "width", base.width.elim Json.null (fun w => Json.num w)),
     (lit "height", base.height.elim Json.null (fun h => Json.num h))]
    ++ base.extra.map (fun kv => (kv.1, tomlToJson kv.2))))

/-- `serde_json::to_value` of a `NodeData` (`models.rs` Serialize impls). -/
def serializeNodeData : NodeData → Json
  | .branch b => serializeBranchNode b
  | .group g => serializeNodeBase g.base
  | .geographicAnchor a => serializeNodeBase a.base
  | .geographicWindow w => serializeNodeBase w.base

/-- Serialization of an `Edge` from `models.rs`, keys in map order. -/
def edgeJson (e : Edge) : Json :=
  .obj [(lit "data", Json.obj [(lit "weight", Json.num e.data.weight)]),
        (lit "id", Json.str e.id), (lit "source", Json.str e.source),
        (lit "target", Json.str e.target)]

/-- `QueryExecutor::execute_network_query`: for `nodes`, each node is
serialized and its first map entry's value taken; for `edges`, the edge
list is serialized; anything else is `InvalidType`. -/
def executeNetworkQuery (net : Network) (collection : Str) : Except QueryError Json :=
  if collection = lit "nodes" then
    (net.nodes.mapM (fun n =>
      match serializeNodeData n with
      | .obj entries =>
        match entries with
        | [] => Except.error (QueryError.invalidType (lit "Empty node"))
        | (_, nodeValue) :: _ => Except.ok nodeValue
      | value => Except.ok value)).map Json.arr
  else if collection = lit "edges" then
    .ok (.arr (net.edges.map edgeJson))
  else .error (.invalidType (lit "Unknown network collection: " ++ collection))

/-- The fresh context `execute` starts from. -/
def initialContext : QueryContext := { node_id := none, block_index := none }

/-- `QueryExecutor::execute`: the network-collection special case fires
only when the path is literally `Property(name, Node("network"))`;
everything else goes through `execute_with_context` with a fresh
context. -/
def execute (net : Network) (resolver : Option Config) (path : QueryPath) :
    Except QueryError Json :=
  match path with
  | .property name (.node id) =>
    if id = lit "network" then executeNetworkQuery net name
    else (executeWithContext (.property name (.node id))
      ⟨net, resolver, initialContext⟩).1
  | _ => (executeWithContext path ⟨net, resolver, initialContext⟩).1

/-- `Config::empty` from `scope/config.rs`. -/
def emptyConfig : Config :=
  { properties := [], inheritance := { general := defaultGeneralInheritance, rules := [] } }

/-- The two-block branch network of `query/tests.rs`
(`create_test_network`): a Compressor block with `pressure = 15.5` and a
bare Pipe block. -/
def testNetwork : Network :=
  { id := lit "test-network"
    label := lit "Test Network"
    nodes := [.branch
      { base :=
          { id := lit "branch-1"
            type_ := lit "branchNode"
            label := some (lit "Test Branch")
            position := { x := 0, y := 0 }
            parent_id := none
            width := none
            height := none
            extra := [] }
        outgoing := []
        blocks :=
          [{ type_ := lit "Compressor", quantity := some 1,
             extra := [(lit "pressure", Toml.float (31 / 2))] },
           { type_ := lit "Pipe", quantity := some 1, extra := [] }] }]
    edges := [] }

/-- Scope-level backing store, one arm per case of
`resolve_property_with_explicit_scopes`: Block reads the block's `extra`,
Branch the branch base's `extra`, Group the owning group's base `extra`
(absent group contains nothing), Global the config's `properties`. -/
def scopeStore (config : Config) (property : Str) (block : Block) (branch : BranchNode)
    (group : Option GroupNode) : ScopeLevel → Option Toml
  | .block => lookupKV block.extra property
  | .branch => lookupKV branch.base.extra property
  | .group => group.bind (fun g => lookupKV g.base.extra property)
  | .global => lookupKV config.properties property

/-- A block with no properties of its own (for concrete instantiations). -/
def c5block : Block := { type_ := lit "Pipe", quantity := none, extra := [] }

/-- A branch with no properties of its own (for concrete instantiations). -/
def c5branch : BranchNode :=
  { base :=
      { id := lit "b", type_ := lit "branchNode", label := none,
        position := { x := 0, y := 0 }, parent_id := none,
        width := none, height := none, extra := [] }
    outgoing := []
    blocks := [c5block] }

/-- A config whose global scope holds `p = 7` (for concrete instantiations). -/
def c5config : Config :=
  { properties := [(lit "p", Toml.int 7)]
    inheritance := { general := defaultGeneralInheritance, rules := [] } }

/-- A config with a complex per-property rule carrying a `Pipe` override
(for concrete instantiations). -/
def c6config : Config :=
  { properties := []
    inheritance :=
      { general := defaultGeneralInheritance
        rules := [(lit "p",
          .complex [ScopeLevel.global] [(lit "Pipe", [ScopeLevel.branch])])] } }

/-- A five-element array (for concrete instantiations). -/
def c7list : List Json := [.num 0, .num 1, .num 2, .num 3, .num 4]


/-! ## Supporting lemmas -/

theorem splitOnceChar_eq_none {c : Char} {s : Str} (h : c ∉ s) :
    splitOnceChar c s = none := by
  induction s with
  | nil => rfl
  | cons a as ih =>
    have hac : ¬(a = c) := by
      intro hh
      exact h (by rw [hh]; exact List.mem_cons_self c as)
    have has : c ∉ as := fun hh => h (List.mem_cons_of_mem a hh)
    simp only [splitOnceChar, if_neg hac, ih has, Option.map_none']

theorem splitChar_eq_single {c : Char} {s : Str} (h : c ∉ s) :
    splitChar c s = [s] := by
  induction s with
  | nil => rfl
  | cons a as ih =>
    have hac : ¬(a = c) := by
      intro hh
      exact h (by rw [hh]; exact List.mem_cons_self c as)
    have has : c ∉ as := fun hh => h (List.mem_cons_of_mem a hh)
    simp only [splitChar, ih has, if_neg hac]

/-! ## Claim theorems -/

/-- C1: parsing `nodes[type=branchNode]` yields
`Filter("type", =, "branchNode", Property("nodes", Node("network")))`, but
executing that AST against a network with no node whose id is `network`
does NOT succeed with the filtered node array: the executor's
network-collection special case matches only a bare
`Property(_, Node("network"))`, so the `Filter`-wrapped AST falls through
to an ordinary node lookup and returns `NodeNotFound("network")`.  This
contradicts the spec's deferral rule; the parser builds this AST precisely
so it can be executed, so the executor's missing case is a code bug. -/
theorem c1_network_filter_nodeNotFound :
    parseQueryPath (lit "nodes[type=branchNode]")
      = .ok (.filter (lit "type") .equals (lit "branchNode")
          (.property (lit "nodes") (.node (lit "network"))))
    ∧ execute testNetwork none
        (.filter (lit "type") .equals (lit "branchNode")
          (.property (lit "nodes") (.node (lit "network"))))
      = .error (.nodeNotFound (lit "network"))
    ∧ (execute testNetwork none (.property (lit "nodes") (.node (lit "network")))).isOk
      = true :=
  ⟨rfl, rfl, rfl⟩

/-- C3 counterexample: for the input `?scope=block` (empty base path) the
parser returns `EmptyPath`, not `UnexpectedEnd`. -/
theorem c3_counterexample :
    parseQueryPath (lit "?scope=block") = .error .emptyPath
    ∧ parseQueryPath (lit "?scope=block") ≠ .error .unexpectedEnd :=
  ⟨rfl, by
    rw [show parseQueryPath (lit "?scope=block") = Except.error ParseError.emptyPath from rfl]
    simp⟩

/-- C3 (amended): for every input of the form `?scope=<anything>` (empty
base path), parse returns `ParseError::EmptyPath` — splitting the empty
base path on `/` still yields one (empty) part, so the `UnexpectedEnd`
branch is unreachable and the recursive parse of the empty inner path
reports `EmptyPath`. -/
theorem c3_empty_base_emptyPath (rest : Str) :
    parseQueryPath ('?' :: (lit "scope=" ++ rest)) = .error .emptyPath := rfl

/-- C4 counterexample: `nodeset` contains no `/`, `?`, `:` or `[` and is
not the literal `nodes`, yet parsing it does not give `Ok(Node("nodeset"))`:
the network-query routing tests the string prefix `nodes`, so `nodeset` is
sent to `parse_network_query` and fails with `InvalidCharacter('?', 0)`. -/
theorem c4_counterexample :
    parseQueryPath (lit "nodeset") = .error (.invalidCharacter '?' 0)
    ∧ parseQueryPath (lit "nodeset") ≠ .ok (.node (lit "nodeset")) :=
  ⟨rfl, by
    rw [show parseQueryPath (lit "nodeset")
      = Except.error (ParseError.invalidCharacter '?' 0) from rfl]
    simp⟩

/-- C4 (amended): a path is routed to the network-query parser exactly when
its text starts with the string prefix `nodes` or `edges` (not when its
first `/`-segment equals them); for every non-empty id containing no `/`,
`?`, `:` or `[` and not starting with either prefix, parse returns
`Ok(Node(id))`. -/
theorem c4_plain_id_node (cs : Str) (hne : cs ≠ [])
    (hn : startsW (lit "nodes") cs = false) (he : startsW (lit "edges") cs = false)
    (hs : '/' ∉ cs) (hq : '?' ∉ cs) (_hc : ':' ∉ cs) (_hb : '[' ∉ cs) :
    parseQueryPath cs = .ok (.node cs) := by
  simp only [parseQueryPath, parseQP, if_neg hne, hn, he, Bool.or_self,
    Bool.false_eq_true, if_false, splitOnceChar_eq_none hq, parseSegmentsPath,
    splitChar_eq_single hs, applySegments]

/-- C4 witness: the id `x` parses to `Node("x")`. -/
theorem c4_witness : parseQueryPath (lit "x") = .ok (.node (lit "x")) :=
  c4_plain_id_node (lit "x") (by simp [lit]) rfl rfl (by decide) (by decide)
    (by decide) (by decide)

theorem compareNumeric_ok {fv : Json} {v : Str} {cmp : ℚ → ℚ → Bool} {b : Bool}
    (h : compareNumeric fv v cmp = .ok b) :
    ∃ q f, fv = Json.num q ∧ parseFloat v = some f ∧ cmp q f = b := by
  cases fv <;> simp [compareNumeric] at h
  case num q =>
    cases hf : parseFloat v with
    | none => rw [hf] at h; exact absurd h (by simp)
    | some f =>
      rw [hf] at h
      exact ⟨q, f, rfl, rfl, by injection h⟩

theorem matchesFilterValue_ordering_ok {fv : Json} {v : Str} {op : FilterOperator} {b : Bool}
    (hop : op = .greaterThan ∨ op = .lessThan ∨ op = .greaterThanOrEqual ∨
      op = .lessThanOrEqual)
    (h : matchesFilterValue fv op v = .ok b) :
    ∃ q f, fv = Json.num q ∧ parseFloat v = some f := by
  rcases hop with rfl | rfl | rfl | rfl <;>
    · simp only [matchesFilterValue] at h
      obtain ⟨q, f, hq, hf, _⟩ := compareNumeric_ok h
      exact ⟨q, f, hq, hf⟩

/-- C2 counterexample: an ordering filter whose literal does not parse as a
float and whose elements' fields are partly missing, partly non-numeric
does not raise `InvalidType` — it evaluates to the empty array. -/
theorem c2_counterexample :
    execute testNetwork none
      (.filter (lit "pressure") .greaterThan (lit "abc")
        (.property (lit "blocks") (.node (lit "branch-1"))))
      = .ok (.arr []) := rfl

/-- C2 (amended): for ordering operators the filter never raises
`InvalidType` on an array: when the literal does not parse as a float the
result is the empty array, and any element whose field resolves to a
non-numeric value is excluded from the result (the comparison error is
swallowed by `.unwrap_or_default()`). -/
theorem c2_ordering_filter_excludes (l : List Json) (field v : Str) (op : FilterOperator)
    (hop : op = .greaterThan ∨ op = .lessThan ∨ op = .greaterThanOrEqual ∨
      op = .lessThanOrEqual) :
    (parseFloat v = none → applyFilter (.arr l) field op v = .ok (.arr []))
    ∧ ∀ l', applyFilter (.arr l) field op v = .ok (.arr l') →
        ∀ x ∈ l', ∃ q f,
          (if field.contains '.' then getNestedProperty x field
           else getProperty x field) = .ok (.num q)
          ∧ parseFloat v = some f := by
  constructor
  · intro hv
    have hnil : ∀ x ∈ l, ¬(filterItemPred x field op v = true) := by
      intro x _
      simp only [filterItemPred]
      cases hlk : (if field.contains '.' then getNestedProperty x field
          else getProperty x field) with
      | error e => simp
      | ok fv =>
        dsimp only
        cases hm : matchesFilterValue fv op v with
        | error e => simp
        | ok b =>
          obtain ⟨q, f, _, hf⟩ := matchesFilterValue_ordering_ok hop hm
          rw [hf] at hv
          exact absurd hv (by simp)
    simp only [applyFilter, List.filter_eq_nil_iff.mpr hnil]
  · intro l' hl' x hx
    have hfil : l.filter (fun item => filterItemPred item field op v) = l' := by
      simpa [applyFilter] using hl'
    rw [← hfil] at hx
    have hp := (List.mem_filter.mp hx).2
    simp only [filterItemPred] at hp
    cases hlk : (if field.contains '.' then getNestedProperty x field
        else getProperty x field) with
    | error e => rw [hlk] at hp; simp at hp
    | ok fv =>
      rw [hlk] at hp
      dsimp only at hp
      cases hm : matchesFilterValue fv op v with
      | error e => rw [hm] at hp; simp at hp
      | ok b =>
        obtain ⟨q, f, hq, hf⟩ := matchesFilterValue_ordering_ok hop hm
        exact ⟨q, f, by rw [hq], hf⟩

/-- C2 witness: a concrete ordering filter with an unparsable literal
returns the empty array. -/
theorem c2_witness :
    applyFilter (.arr [Json.obj [(lit "a", Json.num 1)]]) (lit "a") .greaterThan (lit "abc")
      = .ok (.arr []) :=
  (c2_ordering_filter_excludes [Json.obj [(lit "a", Json.num 1)]] (lit "a") (lit "abc")
    .greaterThan (Or.inl rfl)).1 rfl

theorem resolveExplicit_cons (config : Config) (property : Str) (block : Block)
    (branch : BranchNode) (group : Option GroupNode) (s : ScopeLevel)
    (rest : List ScopeLevel) :
    resolvePropertyWithExplicitScopes config property block branch group (s :: rest)
      = match scopeStore config property block branch group s with
        | some v => some (v, s)
        | none => resolvePropertyWithExplicitScopes config property block branch group rest := by
  cases s with
  | block =>
    simp only [resolvePropertyWithExplicitScopes, scopeStore]
    cases lookupKV block.extra property <;> rfl
  | branch =>
    simp only [resolvePropertyWithExplicitScopes, scopeStore]
    cases lookupKV branch.base.extra property <;> rfl
  | group =>
    simp only [resolvePropertyWithExplicitScopes, scopeStore]
    cases group.bind (fun g => lookupKV g.base.extra property) <;> rfl
  | global =>
    simp only [resolvePropertyWithExplicitScopes, scopeStore]
    cases lookupKV config.properties property <;> rfl

/-- C5: the scope resolver walks the explicit scope-level list in order and
returns the value (paired with its level) from the first scope whose
backing store contains the property — Block reading the block's `extra`
map, Branch the branch base node's `extra`, Group the owning group's base
`extra` (an absent group is skipped, not an error), Global the config's
`properties` map — and returns `none` (not an error) when no listed scope
contains it. -/
theorem c5_resolver_first_match (config : Config) (property : Str) (block : Block)
    (branch : BranchNode) (group : Option GroupNode) :
    (∀ scopes, (∀ s ∈ scopes, scopeStore config property block branch group s = none) →
        resolvePropertyWithExplicitScopes config property block branch group scopes = none)
    ∧ (∀ pre s post v,
        (∀ t ∈ pre, scopeStore config property block branch group t = none) →
        scopeStore config property block branch group s = some v →
        resolvePropertyWithExplicitScopes config property block branch group (pre ++ s :: post)
          = some (v, s)) := by
  constructor
  · intro scopes
    induction scopes with
    | nil => intro _; rfl
    | cons a rest ih =>
      intro h
      rw [resolveExplicit_cons, h a (List.mem_cons_self a rest)]
      exact ih (fun t ht => h t (List.mem_cons_of_mem a ht))
  · intro pre s post v hpre hs
    induction pre with
    | nil => rw [List.nil_append, resolveExplicit_cons, hs]
    | cons a rest ih =>
      rw [List.cons_append, resolveExplicit_cons, hpre a (List.mem_cons_self a rest)]
      exact ih (fun t ht => hpre t (List.mem_cons_of_mem a ht))

/-- C5 witness: with scopes `[block, global]`, a property absent at block
level and present globally resolves from the Global store. -/
theorem c5_witness :
    resolvePropertyWithExplicitScopes c5config (lit "p") c5block c5branch none
      [ScopeLevel.block, ScopeLevel.global] = some (Toml.int 7, ScopeLevel.global) :=
  (c5_resolver_first_match c5config (lit "p") c5block c5branch none).2
    [ScopeLevel.block] ScopeLevel.global [] (Toml.int 7)
    (by intro t ht; simp only [List.mem_singleton] at ht; subst ht; rfl) rfl

/-- C6: the scope chain is chosen by precedence — a complex per-property
rule's block-type override first, else the rule's base ordering (simple or
complex), else the configuration's general default ordering, whose default
value is `[Block, Branch, Group, Global]`. -/
theorem c6_scope_chain_precedence (config : Config) (property blockType : Str) :
    (∀ base overrides chain,
        lookupKV config.inheritance.rules property = some (.complex base overrides) →
        lookupKV overrides blockType = some chain →
        getScopeChain config property blockType = chain)
    ∧ (∀ base overrides,
        lookupKV config.inheritance.rules property = some (.complex base overrides) →
        lookupKV overrides blockType = none →
        getScopeChain config property blockType = base)
    ∧ (∀ chain,
        lookupKV config.inheritance.rules property = some (.simple chain) →
        getScopeChain config property blockType = chain)
    ∧ (lookupKV config.inheritance.rules property = none →
        getScopeChain config property blockType = config.inheritance.general)
    ∧ defaultGeneralInheritance
        = [ScopeLevel.block, ScopeLevel.branch, ScopeLevel.group, ScopeLevel.global] := by
  refine ⟨?_, ?_, ?_, ?_, rfl⟩ <;> intros <;> simp [getScopeChain, *]

/-- C6 witness: a complex rule with a matching `Pipe` override selects the
override chain. -/
theorem c6_witness :
    getScopeChain c6config (lit "p") (lit "Pipe") = [ScopeLevel.branch] :=
  (c6_scope_chain_precedence c6config (lit "p") (lit "Pipe")).1
    [ScopeLevel.global] [(lit "Pipe", [ScopeLevel.branch])] [ScopeLevel.branch] rfl rfl

/-- C7: on a non-empty array, `Range(start?, end?)` returns the inclusive
slice from `start` (default 0) to `end` (default length − 1) when the
defaulted bounds are in range and ordered, and errors
(`IndexOutOfRange` for a bound ≥ length, `InvalidType` for start > end)
otherwise. -/
theorem c7_range_inclusive (l : List Json) (start stop : Option Nat) (_hne : l ≠ []) :
    (start.getD 0 < l.length → stop.getD (l.length - 1) < l.length →
        start.getD 0 ≤ stop.getD (l.length - 1) →
        getRange (.arr l) start stop
          = .ok (.arr ((l.drop (start.getD 0)).take
              (stop.getD (l.length - 1) + 1 - start.getD 0))))
    ∧ (l.length ≤ start.getD 0 →
        getRange (.arr l) start stop = .error (.indexOutOfRange (start.getD 0) l.length))
    ∧ (start.getD 0 < l.length → l.length ≤ stop.getD (l.length - 1) →
        getRange (.arr l) start stop
          = .error (.indexOutOfRange (stop.getD (l.length - 1)) l.length))
    ∧ (start.getD 0 < l.length → stop.getD (l.length - 1) < l.length →
        stop.getD (l.length - 1) < start.getD 0 →
        getRange (.arr l) start stop
          = .error (.invalidType
              (rangeStartEndMsg (start.getD 0) (stop.getD (l.length - 1))))) := by
  refine ⟨?_, ?_, ?_, ?_⟩
  · intro h1 h2 h3
    simp only [getRange]
    rw [if_neg (by omega), if_neg (by omega), if_neg (by omega)]
  · intro h1
    simp only [getRange]
    rw [if_pos (by omega)]
  · intro h1 h2
    simp only [getRange]
    rw [if_neg (by omega), if_pos (by omega)]
  · intro h1 h2 h3
    simp only [getRange]
    rw [if_neg (by omega), if_neg (by omega), if_pos (by omega)]

/-- C7 witness: the spec's length-5 instances — `1:2` gives elements 1–2,
`:2` gives 0–2, `1:` gives 1–4 — and a bound ≥ length errors. -/
theorem c7_witness :
    getRange (.arr c7list) (some 1) (some 2) = .ok (.arr [.num 1, .num 2])
    ∧ getRange (.arr c7list) none (some 2) = .ok (.arr [.num 0, .num 1, .num 2])
    ∧ getRange (.arr c7list) (some 1) none
        = .ok (.arr [.num 1, .num 2, .num 3, .num 4])
    ∧ getRange (.arr c7list) (some 7) (some 8) = .error (.indexOutOfRange 7 5) :=
  ⟨(c7_range_inclusive c7list (some 1) (some 2) (by simp [c7list])).1
      (by decide) (by decide) (by decide),
   (c7_range_inclusive c7list none (some 2) (by simp [c7list])).1
      (by decide) (by decide) (by decide),
   (c7_range_inclusive c7list (some 1) none (by simp [c7list])).1
      (by decide) (by decide) (by decide),
   (c7_range_inclusive c7list (some 7) (some 8) (by simp [c7list])).2.1 (by decide)⟩

/-- C10: on every JSON object, property lookup with the name `data`
returns the whole object unchanged, so the value stored under a literal
`data` key is never what the lookup returns (the alias takes
precedence). -/
theorem c10_data_alias (entries : List (Str × Json)) :
    getProperty (.obj entries) (lit "data") = .ok (.obj entries)
    ∧ ∀ v, (lit "data", v) ∈ entries →
        getProperty (.obj entries) (lit "data") ≠ .ok v := by
  constructor
  · simp [getProperty]
  · intro v hv h
    have hobj : Json.obj entries = v := by
      have h1 : getProperty (.obj entries) (lit "data") = .ok (.obj entries) := by
        simp [getProperty]
      rw [h1] at h
      injection h
    have hsz : sizeOf v < sizeOf (Json.obj entries) := by
      have h1 := List.sizeOf_lt_of_mem hv
      have h2 : sizeOf (lit "data", v) = 1 + sizeOf (lit "data") + sizeOf v := rfl
      have h3 : sizeOf (Json.obj entries) = 1 + sizeOf entries := by simp
      omega
    rw [hobj] at hsz
    exact absurd hsz (lt_irrefl _)

/-- C10 witness: an object with a literal `data` key returns itself, not
that key's stored value. -/
theorem c10_witness :
    getProperty (.obj [(lit "data", Json.num 1)]) (lit "data")
      = .ok (.obj [(lit "data", Json.num 1)])
    ∧ getProperty (.obj [(lit "data", Json.num 1)]) (lit "data") ≠ .ok (Json.num 1) :=
  ⟨(c10_data_alias [(lit "data", Json.num 1)]).1,
   (c10_data_alias [(lit "data", Json.num 1)]).2 (Json.num 1) (List.Mem.head _)⟩

theorem findIdxChar_append_first (c : Char) (pre rest : Str) (h : c ∉ pre) :
    findIdxChar c (pre ++ c :: rest) = some pre.length := by
  have aux : ∀ (p : Str), c ∉ p → ∀ i,
      List.findIdx? (fun x => decide (x = c)) (p ++ c :: rest) i = some (p.length + i) := by
    intro p
    induction p with
    | nil =>
      intro _ i
      simp [List.findIdx?_cons]
    | cons a as ih =>
      intro hp i
      have hac : ¬(a = c) := by
        intro hh
        exact hp (by rw [hh]; exact List.mem_cons_self c as)
      have has : c ∉ as := fun hh => hp (List.mem_cons_of_mem a hh)
      rw [List.cons_append, List.findIdx?_cons]
      simp only [decide_eq_true_eq]
      rw [if_neg hac, ih has (i + 1)]
      congr 1
      simp only [List.length_cons]
      omega
  have h0 := aux pre h 0
  simpa [findIdxChar] using h0

theorem parseFilter_fused (fe : Str) (hb : ']' ∉ fe) {field value : Str}
    {op : FilterOperator} (hfe : parseFilterExpr fe = .ok (field, op, value)) :
    parseFilter ('[' :: (fe ++ [']']))
      = .ok (some (([] : Str), field, op, value)) := by
  have h1 : findIdxChar '[' ('[' :: (fe ++ [']'])) = some 0 := by
    simp [findIdxChar, List.findIdx?_cons]
  have hnm : ']' ∉ ('[' :: fe) := by
    intro hmem
    rcases List.mem_cons.mp hmem with h' | h'
    · exact absurd h' (by decide)
    · exact hb h'
  have h2 : findIdxChar ']' ('[' :: (fe ++ [']'])) = some (fe.length + 1) := by
    have h3 := findIdxChar_append_first ']' ('[' :: fe) [] hnm
    simpa [List.length_cons] using h3
  have key : parseFilter ('[' :: (fe ++ [']']))
      = (parseFilterExpr (List.take (fe.length + 1 - (0 + 1))
            (List.drop (0 + 1) ('[' :: (fe ++ [']']))))).bind
          (fun r => Except.ok (some ((('[' :: (fe ++ [']'])).take 0 : Str),
            r.1, r.2.1, r.2.2))) := by
    simp only [parseFilter, h1, h2]
    rfl
  rw [key]
  have h4 : List.take (fe.length + 1 - (0 + 1)) (List.drop (0 + 1) ('[' :: (fe ++ [']'])))
      = fe := by
    simp only [Nat.zero_add, Nat.add_sub_cancel, List.drop_succ_cons, List.drop_zero]
    exact List.take_left fe [']']
  rw [h4, hfe]
  rfl

theorem contains_colon_of_parseRange {rp : Str} {s e : Option Nat}
    (h : parseRange rp = .ok (some (s, e))) : rp.contains ':' = true := by
  cases hc : rp.contains ':' with
  | true => rfl
  | false =>
    simp only [parseRange, hc] at h
    exact absurd h (by simp)

/-- C8 counterexample: the segment `1:2:3[f=y]` contains both `:` and `[`,
yet the parser builds no `Range` for it — `parse_range` rejects `1:2:3`
(three colon-parts), so the whole segment is classified as a filter over
`Property("1:2:3", …)`.  The claim's universal quantification over every
segment containing both characters is therefore false. -/
theorem c8_counterexample :
    parseQueryPath (lit "x/1:2:3[f=y]")
      = .ok (.filter (lit "f") .equals (lit "y")
          (.property (lit "1:2:3") (.node (lit "x")))) := rfl

/-- C8 (amended): for every fused segment `r[f<op>v]` whose prefix `r`
before the first `[` parses as a range and whose bracketed part is a
well-formed filter expression closed by the first `]`, the parser's
segment step wraps the current AST first in the `Range` and then in the
`Filter` (instantiated by the parser on the full path
`x/blocks/0:1[type=Compressor]`); consequently evaluation slices before
filtering: whenever the `Range` sub-AST evaluates to an array (the
inclusive slice), the enclosing `Filter` evaluates to exactly the members
of that slice satisfying the filter predicate. -/
theorem c8_range_before_filter (current : QueryPath) (rp fe : Str) (s e : Option Nat)
    (field value : Str) (op : FilterOperator)
    (hrp : parseRange rp = .ok (some (s, e)))
    (hnb : '[' ∉ rp) (hb : ']' ∉ fe)
    (hfe : parseFilterExpr fe = .ok (field, op, value)) :
    applySegment current (rp ++ '[' :: (fe ++ [']']))
      = .ok (.filter field op value (.range s e current))
    ∧ parseQueryPath (lit "x/blocks/0:1[type=Compressor]")
      = .ok (.filter (lit "type") .equals (lit "Compressor")
          (.range (some 0) (some 1) (.property (lit "blocks") (.node (lit "x")))))
    ∧ ∀ (inner : QueryPath) (st st' : ExecState) (sl : List Json),
        executeWithContext (.range s e inner) st = (.ok (.arr sl), st') →
        executeWithContext (.filter field op value (.range s e inner)) st
            = (.ok (.arr (sl.filter (fun item => filterItemPred item field op value))), st')
          ∧ ∀ x ∈ sl.filter (fun item => filterItemPred item field op value),
              x ∈ sl ∧ filterItemPred x field op value = true := by
  refine ⟨?_, rfl, ?_⟩
  · have hcm : ':' ∈ rp := List.elem_iff.mp (contains_colon_of_parseRange hrp)
    have hc1 : (rp ++ '[' :: (fe ++ [']'])).contains ':' = true :=
      List.elem_iff.mpr (List.mem_append_left _ hcm)
    have hc2 : (rp ++ '[' :: (fe ++ [']'])).contains '[' = true :=
      List.elem_iff.mpr (List.mem_append_right _ (List.mem_cons_self _ _))
    have hfind := findIdxChar_append_first '[' rp (fe ++ [']']) hnb
    simp only [applySegment, hc1, hc2, Bool.and_self, if_true, hfind,
      List.take_left, List.drop_left, hrp, parseFilter_fused fe hb hfe]
  · intro inner st st' sl h
    constructor
    · have hun : executeWithContext (.filter field op value (.range s e inner)) st
          = match executeWithContext (.range s e inner) st with
            | (.error err, st1) => (.error err, st1)
            | (.ok v, st1) => (applyFilter v field op value, st1) := rfl
      rw [hun, h]
      rfl
    · intro x hx
      exact ⟨(List.mem_filter.mp hx).1, (List.mem_filter.mp hx).2⟩

/-- C8 witness: the segment step on `0:1[type=Compressor]` builds
Filter-over-Range, and on the two-block test network slicing `blocks` to
`0:1` then filtering `type=Compressor` keeps exactly the Compressor block
that lay within the slice. -/
theorem c8_witness :
    applySegment (.property (lit "blocks") (.node (lit "branch-1")))
        (lit "0:1[type=Compressor]")
      = .ok (.filter (lit "type") .equals (lit "Compressor")
          (.range (some 0) (some 1) (.property (lit "blocks") (.node (lit "branch-1")))))
    ∧ executeWithContext
        (.filter (lit "type") .equals (lit "Compressor")
          (.range (some 0) (some 1) (.property (lit "blocks") (.node (lit "branch-1")))))
        ⟨testNetwork, none, initialContext⟩
        = (.ok (.arr [Json.obj [(lit "type", .str (lit "Compressor")),
                                (lit "quantity", .num 1),
                                (lit "pressure", .num (31 / 2))]]),
           ⟨testNetwork, none, ⟨some (lit "branch-1"), none⟩⟩) :=
  ⟨(c8_range_before_filter (.property (lit "blocks") (.node (lit "branch-1")))
      (lit "0:1") (lit "type=Compressor") (some 0) (some 1)
      (lit "type") (lit "Compressor") .equals rfl (by decide) (by decide) rfl).1,
   ((c8_range_before_filter (.property (lit "blocks") (.node (lit "branch-1")))
      (lit "0:1") (lit "type=Compressor") (some 0) (some 1)
      (lit "type") (lit "Compressor") .equals rfl (by decide) (by decide) rfl).2.2
      (.property (lit "blocks") (.node (lit "branch-1")))
      ⟨testNetwork, none, initialContext⟩
      ⟨testNetwork, none, ⟨some (lit "branch-1"), none⟩⟩
      [Json.obj [(lit "type", .str (lit "Compressor")),
                 (lit "quantity", .num 1),
                 (lit "pressure", .num (31 / 2))],
       Json.obj [(lit "type", .str (lit "Pipe")), (lit "quantity", .num 1)]]
      rfl).1⟩

theorem executeWithContext_property_snd (name : Str) (inner : QueryPath) (st : ExecState) :
    (executeWithContext (.property name inner) st).2 = (executeWithContext inner st).2 := by
  simp only [executeWithContext]
  rcases executeWithContext inner st with ⟨r, st1⟩
  cases r with
  | error e => rfl
  | ok value =>
    dsimp only
    split
    · split <;> first | rfl | (split <;> rfl)
    · rfl

theorem executeWithContext_index_snd (idx : Nat) (inner : QueryPath) (st : ExecState) :
    (executeWithContext (.index idx inner) st).2
      = (executeWithContext inner
          { st with ctx := { st.ctx with block_index := some idx } }).2 := by
  simp only [executeWithContext]
  rcases executeWithContext inner { st with ctx := { st.ctx with block_index := some idx } }
    with ⟨r, st1⟩
  cases r <;> rfl

theorem executeWithContext_range_snd (s e : Option Nat) (inner : QueryPath) (st : ExecState) :
    (executeWithContext (.range s e inner) st).2 = (executeWithContext inner st).2 := by
  simp only [executeWithContext]
  rcases executeWithContext inner st with ⟨r, st1⟩
  cases r <;> rfl

theorem executeWithContext_filter_snd (field : Str) (op : FilterOperator) (fv : Str)
    (inner : QueryPath) (st : ExecState) :
    (executeWithContext (.filter field op fv inner) st).2
      = (executeWithContext inner st).2 := by
  simp only [executeWithContext]
  rcases executeWithContext inner st with ⟨r, st1⟩
  cases r <;> rfl

theorem executeWithContext_scopeResolve_snd (property : Str) (scopes : List Str)
    (inner : QueryPath) (st : ExecState) :
    (executeWithContext (.scopeResolve property scopes inner) st).2
      = (executeWithContext inner st).2 := by
  simp only [executeWithContext]
  rcases executeWithContext inner st with ⟨r, st1⟩
  cases r with
  | error e => rfl
  | ok value =>
    dsimp only
    split <;> rfl

theorem executeWithContext_preserves (p : QueryPath) :
    ∀ st : ExecState, (executeWithContext p st).2.network = st.network
      ∧ (executeWithContext p st).2.resolver = st.resolver := by
  induction p with
  | node id => exact fun st => ⟨rfl, rfl⟩
  | property name inner ih =>
    intro st
    rw [executeWithContext_property_snd]
    exact ih st
  | index idx inner ih =>
    intro st
    rw [executeWithContext_index_snd]
    exact ih { st with ctx := { st.ctx with block_index := some idx } }
  | range s e inner ih =>
    intro st
    rw [executeWithContext_range_snd]
    exact ih st
  | filter field op fv inner ih =>
    intro st
    rw [executeWithContext_filter_snd]
    exact ih st
  | scopeResolve property scopes inner ih =>
    intro st
    rw [executeWithContext_scopeResolve_snd]
    exact ih st

/-- C9: query evaluation is deterministic and pure — evaluating the same
AST twice against the same network and resolver yields identical results,
and the evaluation state after `execute_with_context` carries the network
and resolver configuration unchanged (only the evaluation-local query
context is mutated). -/
theorem c9_execution_pure (p : QueryPath) :
    (∀ st : ExecState, (executeWithContext p st).2.network = st.network
        ∧ (executeWithContext p st).2.resolver = st.resolver)
    ∧ ∀ (net : Network) (resolver : Option Config),
        execute net resolver p = execute net resolver p :=
  ⟨executeWithContext_preserves p, fun _ _ => rfl⟩

end Dagger
